import Mathlib

/-!
Verification of the permission-scoped CRUD controller (`src/crud-controller.ts`).

The development shallowly embeds the controller's logic:

* JavaScript objects (the compiled `where` restriction, content entities) are
  association lists `List (String × Val)` with JS property-access semantics
  (`objGet`, `objSet`, `Object.assign` as `objAssign`).
* The caller query (`@Query() query`) is an association list of raw HTTP query
  parameters.  At the HTTP boundary every scalar parameter is a string; a
  parameter that is the decimal numeral of `n` is represented as `QVal.num n`
  (such text is non-empty, hence truthy in JS, and `parseInt` yields `n`).
  Non-numeral scalar text is `QVal.str`, a repeated parameter is `QVal.arr`.
* `getWhereRestrictionsByPermissions` returns `Option JsObj`; `none` models the
  JS return value `false` (the three permission checks are resolved by the
  external roles-and-permissions collaborator and enter as the `Permissions`
  triple, exactly the three booleans the source computes).
* `getQueryBuilder` returns `Except HttpError QuerySpec`: the thrown
  `UnauthorizedException` becomes `Except.error`, the fully configured TypeORM
  query builder becomes the `QuerySpec` record (access `WHERE` bracket tree,
  left joins, order, take, skip, and the `andWhere` entity filters).
* The persistence collaborator (`repository.save`) is passed in as a function
  returning `Except JsError JsObj`; a thrown driver error is `Except.error`.
-/

/-- A JavaScript runtime value, as far as the controller manipulates them. -/
inductive Val where
  | str (s : String)
  | num (n : Int)
  | bool (b : Bool)
  | null
  | undef
deriving DecidableEq, Repr

/-- A JavaScript object: an association list of own enumerable properties.
Real JS objects never hold a key twice; theorems that need this assume
`Nodup` on the key list. -/
abbrev JsObj := List (String × Val)

/-- Reading a row returned by the store uses the same representation. -/
abbrev Row := JsObj

/-- `o[k]`: the binding of `k`, `none` when the property is absent
(JS yields `undefined`). -/
def objGet : JsObj → String → Option Val
  | [], _ => none
  | e :: o, k => if e.1 = k then some e.2 else objGet o k

/-- `o[k] = v`: overwrite the binding in place when present (JS keeps key
order), append otherwise. -/
def objSet : JsObj → String → Val → JsObj
  | [], k, v => [(k, v)]
  | e :: o, k, v => if e.1 = k then (k, v) :: o else e :: objSet o k v

/-- `Object.assign(target, source)`: copy every property of `source` onto
`target`, in order. -/
def objAssign (target source : JsObj) : JsObj :=
  source.foldl (fun t e => objSet t e.1 e.2) target

/-- JS truthiness of a property read (`undefined`, `null`, `0`, `""`, `false`
are falsy). -/
def jsTruthy : Option Val → Bool
  | none => false
  | some (.str s) => s ≠ ""
  | some (.num n) => n ≠ 0
  | some (.bool b) => b
  | some .null => false
  | some .undef => false

/-- A raw caller query parameter.  `num n` is the decimal-numeral text of `n`
(e.g. `"150"`), `str` any other scalar text, `arr` a repeated parameter. -/
inductive QVal where
  | num (n : Nat)
  | str (s : String)
  | arr (xs : List String)
deriving DecidableEq, Repr

/-- The caller query object, e.g. `{ limit: "10", city: ["a","b"] }`. -/
abbrev QueryObj := List (String × QVal)

/-- `query[k]`. -/
def qget : QueryObj → String → Option QVal
  | [], _ => none
  | e :: q, k => if e.1 = k then some e.2 else qget q k

/-- `delete query[k]`. -/
def qdelete (q : QueryObj) (k : String) : QueryObj :=
  q.filter (fun e => e.1 ≠ k)

/-- JS truthiness of a scalar query parameter: numeral text is non-empty hence
truthy (also `"0"`); an array is always truthy. -/
def qTruthy : Option QVal → Bool
  | none => false
  | some (.num _) => true
  | some (.str s) => s ≠ ""
  | some (.arr _) => true

/-- `parseInt(v, 10)` on a parameter holding decimal-numeral text.  Text that
parses to `NaN` (and the NaN arithmetic it would feed) is outside the model:
every theorem below supplies numeral parameters. -/
def parseIntQ : QVal → Nat
  | .num n => n
  | .str _ => 0
  | .arr _ => 0

/-- The three resolved view permissions for the current user and resource,
namespaced per resource and answered by the external
roles-and-permissions collaborator (`checkPermissionGranted`). -/
structure Permissions where
  viewAll : Bool
  viewUnpublished : Bool
  viewOwn : Bool
deriving DecidableEq, Repr

/-- `getWhereRestrictionsByPermissions` (src/crud-controller.ts lines 135-184):
compile the permission triple and the resource's `ownerFields` into a partial
entity (`some w`), or the JS value `false` (`none`) when neither `viewAll` nor
`viewOwn` is granted. -/
def getWhereRestrictionsByPermissions (perms : Permissions) (ownerFields : List String)
    (userId : Int) : Option JsObj :=
  if perms.viewAll || perms.viewOwn then
    some (if perms.viewAll then
        if !perms.viewUnpublished then
          let w := objSet [] "isPublished" (Val.bool true)
          if perms.viewOwn then
            ownerFields.foldl (fun w f => objSet w f (Val.num userId)) w
          else w
        else []
      else
        ownerFields.foldl (fun w f => objSet w f (Val.num userId)) [])
  else
    none

/-- Reading a property off the `extraWhere` value; reading off the JS value
`false` yields `undefined`. -/
def whereGet (extraWhere : Option JsObj) (k : String) : Option Val :=
  match extraWhere with
  | none => none
  | some w => objGet w k

/-- The boolean filter tree the query builder assembles: equality and
set-membership leaves, `OR` nodes, and the empty bracket group. -/
inductive FilterPred where
  | eqP (field : String) (v : Val)
  | inP (field : String) (vs : List Val)
  | orP (p q : FilterPred)
  | emptyP
deriving DecidableEq, Repr

/-- `sqb.where(t₁)` followed by `sqb.orWhere(t₂), …`: the terms OR'd
left-associatively; no term at all is the empty bracket group. -/
def orChain : List FilterPred → FilterPred
  | [] => .emptyP
  | t :: ts => ts.foldl .orP t

/-- Evaluate a filter tree on a row. -/
def FilterPred.eval : FilterPred → Row → Bool
  | .eqP k v, r => decide (objGet r k = some v)
  | .inP k vs, r =>
    match objGet r k with
    | some v => vs.contains v
    | none => false
  | .orP p q, r => p.eval r || q.eval r
  | .emptyP, _ => true

/-- The access `WHERE` bracket of `getQueryBuilder` (lines 207-240): `none`
when `if (extraWhere)` is falsy and no `where` is installed at all. -/
def accessRestriction (extraWhere : Option JsObj) (ownerFields : List String) : Option FilterPred :=
  let hasOwnerFields := ownerFields.all (fun f => (whereGet extraWhere f).isSome)
  match extraWhere with
  | none => none
  | some w =>
    some (if hasOwnerFields then
        let ownerGroup :=
          orChain (ownerFields.map (fun f => FilterPred.eqP f ((objGet w f).getD Val.undef)))
        if jsTruthy (objGet w "isPublished") then
          FilterPred.orP ownerGroup (FilterPred.eqP "isPublished" ((objGet w "isPublished").getD Val.undef))
        else ownerGroup
      else
        if jsTruthy (objGet w "isPublished") then
          FilterPred.eqP "isPublished" ((objGet w "isPublished").getD Val.undef)
        else FilterPred.emptyP)

/-- The joins one owner field contributes: `field.split('.')`, drop the last
segment, and each remaining segment extends the accumulated alias starting
from `entity`. -/
def joinPathsOfField (field : String) : List String :=
  ((field.splitOn ".").dropLast.foldl
    (fun (acc : String × List String) part =>
      (acc.1 ++ "." ++ part, acc.2 ++ [acc.1 ++ "." ++ part]))
    ("entity", [])).2

/-- The `leftJoin` calls issued while the owner bracket is built (only when
`extraWhere` is truthy and every owner field is present on it). -/
def accessJoins (extraWhere : Option JsObj) (ownerFields : List String) : List String :=
  match extraWhere with
  | none => []
  | some _ =>
    if ownerFields.all (fun f => (whereGet extraWhere f).isSome) then
      (ownerFields.map joinPathsOfField).flatten
    else []

/-- `query.orderBy && query.order` gate, then
`addOrderBy('entity.' + orderBy, order.toUpperCase())`. -/
def qvalText : QVal → String
  | .num n => toString n
  | .str s => s
  | .arr xs => String.intercalate "," xs

/-- The explicit sort of the assembled query, when both parameters are truthy. -/
def assembleOrder (query : QueryObj) : Option (String × String) :=
  if qTruthy (qget query "orderBy") && qTruthy (qget query "order") then
    some ("entity." ++ qvalText ((qget query "orderBy").getD (.str "")),
      (qvalText ((qget query "order").getD (.str ""))).toUpper)
  else none

/-- The `take` of the assembled query together with the clamp-warning flag
(lines 244-258): a truthy caller limit above 100 is clamped to 100 with a
warning, otherwise used as parsed; a falsy or absent limit defaults to 25. -/
def assembleLimit (query : QueryObj) : Nat × Bool :=
  match qget query "limit" with
  | none => (25, false)
  | some v =>
    if qTruthy (some v) then
      let queryLimit := parseIntQ v
      if queryLimit > 100 then (100, true) else (queryLimit, false)
    else (25, false)

/-- The effective `query.page` after the pagination block: `query.page || 0`
when a truthy limit was supplied, `0` otherwise. -/
def assemblePage (query : QueryObj) : Nat :=
  match qget query "limit" with
  | none => 0
  | some v =>
    if qTruthy (some v) then
      match qget query "page" with
      | none => 0
      | some p => if qTruthy (some p) then parseIntQ p else 0
    else 0

/-- `builder.skip(query.offset || query.limit * query.page)` with the updated
limit and page. -/
def assembleSkip (query : QueryObj) : Nat :=
  match qget query "offset" with
  | some v =>
    if qTruthy (some v) then parseIntQ v
    else (assembleLimit query).1 * assemblePage query
  | none => (assembleLimit query).1 * assemblePage query

/-- The five reserved pagination/sort keys. -/
def reservedKeys : List String := ["limit", "page", "orderBy", "order", "offset"]

/-- The five `delete query.…` statements (lines 260-264). -/
def stripReserved (q : QueryObj) : QueryObj :=
  qdelete (qdelete (qdelete (qdelete (qdelete q "limit") "page") "orderBy") "order") "offset"

/-- One remaining caller key turned into an `andWhere` condition: an array
value gives `IN`, a scalar strict equality (lines 266-272). -/
def toFilter (e : String × QVal) : FilterPred :=
  match e.2 with
  | .arr xs => .inP e.1 (xs.map Val.str)
  | .num n => .eqP e.1 (Val.num n)
  | .str s => .eqP e.1 (Val.str s)

/-- All entity filters `andWhere`-ed onto the builder after the deletes. -/
def assembleFilters (q : QueryObj) : List FilterPred :=
  (stripReserved q).map toFilter

/-- The entity field a leaf filter constrains (filters produced by the
assembly are always leaves). -/
def predKey : FilterPred → String
  | .eqP k _ => k
  | .inP k _ => k
  | .orP _ _ => ""
  | .emptyP => ""

/-- The user-visible error outcomes of the controller. -/
inductive HttpError where
  | unauthorized
  | conflict (message : String)
  | unprocessable (message : String)
deriving DecidableEq, Repr

/-- The fully configured query builder: the access `WHERE` bracket, the owner
joins, the sort, `take`, `skip` (plus the limit-clamp warning flag) and the
`andWhere` entity filters, all conjoined when executed. -/
structure QuerySpec where
  accessWhere : Option FilterPred
  joins : List String
  order : Option (String × String)
  take : Nat
  skip : Nat
  limitWarned : Bool
  filters : List FilterPred
deriving DecidableEq, Repr

/-- `getQueryBuilder` (lines 199-274).  `getWhereRestrictionsByPermissions` is
pure here, so reading it repeatedly equals the source's single
`extraWhere` binding. -/
def getQueryBuilder (perms : Permissions) (ownerFields : List String) (userId : Int)
    (query : QueryObj) (skipPermission : Bool) : Except HttpError QuerySpec :=
  if (getWhereRestrictionsByPermissions perms ownerFields userId).isNone && !skipPermission then
    .error .unauthorized
  else
    .ok {
      accessWhere :=
        accessRestriction (getWhereRestrictionsByPermissions perms ownerFields userId) ownerFields
      joins :=
        accessJoins (getWhereRestrictionsByPermissions perms ownerFields userId) ownerFields
      order := assembleOrder query
      take := (assembleLimit query).1
      skip := assembleSkip query
      limitWarned := (assembleLimit query).2
      filters := assembleFilters query }

/-- Evaluate the optional access bracket on a row; an absent bracket restricts
nothing. -/
def evalAccess : Option FilterPred → Row → Bool
  | none, _ => true
  | some p, r => p.eval r

/-- Project the access bracket out of a builder outcome (`none` when the
request was rejected). -/
def accessOf : Except HttpError QuerySpec → Option FilterPred
  | .ok s => s.accessWhere
  | .error _ => none

/-- The TypeORM find-option reading of the compiled `where` object: a row
matches when every listed property equals the row's value (a conjunction). -/
def whereMatches (w : JsObj) (r : Row) : Bool :=
  w.all (fun e => decide (objGet r e.1 = some e.2))

/-- The acting principal: `user.id` and the result of `user.isAuthorized()`. -/
structure UserEntity where
  id : Int
  authorized : Bool
deriving DecidableEq, Repr

/-- A driver error thrown by `repository.save`: its `code` (MySQL signals a
duplicate key with `ER_DUP_ENTRY`) and its message. -/
structure JsError where
  code : String
  message : String
deriving DecidableEq, Repr

/-- Outcome of `createContentEntity`: the response or thrown exception, plus
everything written to the console. -/
structure CreateResult where
  result : Except HttpError JsObj
  logged : List JsError
deriving Repr

/-- The entity as stamped before saving (lines 66-72): an authorized user's id
on `authorId` and `moderatorId`, `null` on both for an anonymous user. -/
def createStamp (entity : JsObj) (user : UserEntity) : JsObj :=
  if user.authorized then
    objSet (objSet entity "authorId" (Val.num user.id)) "moderatorId" (Val.num user.id)
  else
    objSet (objSet entity "authorId" Val.null) "moderatorId" Val.null

/-- `createContentEntity` (lines 65-88).  `validateResult` is the constant
`true` in the source; the dead validation branch is kept. -/
def createContentEntity (entity : JsObj) (user : UserEntity)
    (save : JsObj → Except JsError JsObj) : CreateResult :=
  let validateResult := true
  if validateResult = true then
    match save (createStamp entity user) with
    | .ok saved => { result := .ok saved, logged := [] }
    | .error e =>
      if e.code = "ER_DUP_ENTRY" then
        { result := .error (.conflict "Duplicate entity. Please, check unique fields")
          logged := [] }
      else
        { result := .error (.unprocessable "Something went wrong. Please try later or contact us")
          logged := [e] }
  else
    { result := .error (.unprocessable "true"), logged := [] }

/-- Outcome of `updateContentEntity`: `result = .ok none` models falling off
the handler with no return value; `saved` is the entity handed to
`repository.save`. -/
structure UpdateResult where
  result : Except HttpError (Option JsObj)
  logged : List JsError
  saved : Option JsObj
deriving Repr

/-- The entity passed to `save` on update (lines 104-107): force `id` and
`authorId` from the current entity and `moderatorId` from the acting user onto
the submitted entity, then `Object.assign(currentEntity, newEntity)`. -/
def updateMerged (userId : Int) (currentEntity newEntity : JsObj) : JsObj :=
  objAssign currentEntity
    (objSet
      (objSet
        (objSet newEntity "id" ((objGet currentEntity "id").getD Val.undef))
        "authorId" ((objGet currentEntity "authorId").getD Val.undef))
      "moderatorId" (Val.num userId))

/-- `updateContentEntity` (lines 99-119): save the merged entity; a thrown
persistence error is caught and written to `console.error`, after which the
handler returns without a value. -/
def updateContentEntity (userId : Int) (currentEntity newEntity : JsObj)
    (save : JsObj → Except JsError JsObj) : UpdateResult :=
  let merged := updateMerged userId currentEntity newEntity
  let validateResult := true
  if validateResult = true then
    match save merged with
    | .ok t => { result := .ok (some t), logged := [], saved := some merged }
    | .error e => { result := .ok none, logged := [e], saved := some merged }
  else
    { result := .error (.unprocessable "true"), logged := [], saved := none }

lemma objGet_objSet_self (o : JsObj) (k : String) (v : Val) :
    objGet (objSet o k v) k = some v := by
  induction o with
  | nil => simp [objGet, objSet]
  | cons e o ih =>
    by_cases he : e.1 = k
    · simp [objGet, objSet, he]
    · simp [objGet, objSet, he, ih]

lemma objGet_objSet_ne (o : JsObj) (k k' : String) (v : Val) (h : k' ≠ k) :
    objGet (objSet o k v) k' = objGet o k' := by
  have h2 : ¬ (k = k') := fun hk => h hk.symm
  induction o with
  | nil => simp [objGet, objSet, h2]
  | cons e o ih =>
    by_cases he : e.1 = k
    · have he2 : ¬ (e.1 = k') := by rw [he]; exact h2
      simp [objGet, objSet, he, h2, he2]
    · have hset : objSet (e :: o) k v = e :: objSet o k v := by simp [objSet, he]
      by_cases he' : e.1 = k'
      · rw [hset]; simp [objGet, he']
      · rw [hset]; simp [objGet, he', ih]

lemma objGet_foldl_objSet (fields : List String) (w0 : JsObj) (v : Val) (k : String) :
    objGet (fields.foldl (fun w f => objSet w f v) w0) k =
      if k ∈ fields then some v else objGet w0 k := by
  induction fields generalizing w0 with
  | nil => simp
  | cons f rest ih =>
    simp only [List.foldl_cons, ih (objSet w0 f v), List.mem_cons]
    by_cases hr : k ∈ rest
    · simp [hr]
    · by_cases hk : k = f
      · simp [hr, hk, objGet_objSet_self]
      · simp [hr, hk, objGet_objSet_ne w0 f k v hk]

lemma objGet_eq_none_iff (o : JsObj) (k : String) :
    objGet o k = none ↔ ∀ e ∈ o, e.1 ≠ k := by
  induction o with
  | nil => simp [objGet]
  | cons e o ih =>
    by_cases he : e.1 = k
    · simp [objGet, he]
    · simp [objGet, he, ih]

lemma objGet_objAssign_of_none (t s : JsObj) (k : String) :
    objGet s k = none → objGet (objAssign t s) k = objGet t k := by
  induction s generalizing t with
  | nil => intro _; simp [objAssign]
  | cons e s ih =>
    intro h
    by_cases he : e.1 = k
    · simp [objGet, he] at h
    · simp only [objGet, he, if_false] at h
      have h1 := ih (objSet t e.1 e.2) h
      simpa [objAssign] using
        h1.trans (objGet_objSet_ne t e.1 k e.2 (fun hk => he hk.symm))

lemma objGet_objAssign_of_some (t s : JsObj) (k : String) (v : Val) :
    (s.map Prod.fst).Nodup → objGet s k = some v → objGet (objAssign t s) k = some v := by
  induction s generalizing t with
  | nil => intro _ h; simp [objGet] at h
  | cons e s ih =>
    intro hnd h
    simp only [List.map_cons, List.nodup_cons] at hnd
    by_cases he : e.1 = k
    · simp only [objGet, he, if_true, Option.some.injEq] at h
      have hs : objGet s k = none := by
        rw [objGet_eq_none_iff]
        intro e2 he2 hk
        have hm : e2.1 ∈ s.map Prod.fst := List.mem_map_of_mem Prod.fst he2
        rw [hk, ← he] at hm
        exact hnd.1 hm
      have h1 : objGet (objAssign (objSet t e.1 e.2) s) k = objGet (objSet t e.1 e.2) k :=
        objGet_objAssign_of_none _ _ _ hs
      have h2 : objGet (objSet t e.1 e.2) k = some v := by
        rw [he, objGet_objSet_self, h]
      simpa [objAssign] using h1.trans h2
    · simp only [objGet, he, if_false] at h
      simpa [objAssign] using ih (objSet t e.1 e.2) hnd.2 h

lemma eval_foldl_orP (ts : List FilterPred) (t : FilterPred) (r : Row) :
    (ts.foldl FilterPred.orP t).eval r = (t.eval r || ts.any (fun p => p.eval r)) := by
  induction ts generalizing t with
  | nil => simp
  | cons p ts ih =>
    simp [ih (t.orP p), FilterPred.eval, Bool.or_assoc]

lemma eval_orChain (ts : List FilterPred) (r : Row) (hne : ts ≠ []) :
    (orChain ts).eval r = ts.any (fun p => p.eval r) := by
  match ts with
  | [] => exact absurd rfl hne
  | t :: ts => simp [orChain, eval_foldl_orP, List.any_cons]

lemma getWhereRestrictions_eq_none_iff (perms : Permissions) (ownerFields : List String)
    (userId : Int) :
    getWhereRestrictionsByPermissions perms ownerFields userId = none ↔
      perms.viewAll = false ∧ perms.viewOwn = false := by
  obtain ⟨a, u, o⟩ := perms
  cases a <;> cases o <;> simp [getWhereRestrictionsByPermissions]

lemma getQueryBuilder_eq_ok (perms : Permissions) (ownerFields : List String) (userId : Int)
    (query : QueryObj) (sp : Bool) (h : perms.viewAll = true ∨ perms.viewOwn = true) :
    getQueryBuilder perms ownerFields userId query sp = .ok {
      accessWhere :=
        accessRestriction (getWhereRestrictionsByPermissions perms ownerFields userId) ownerFields
      joins :=
        accessJoins (getWhereRestrictionsByPermissions perms ownerFields userId) ownerFields
      order := assembleOrder query
      take := (assembleLimit query).1
      skip := assembleSkip query
      limitWarned := (assembleLimit query).2
      filters := assembleFilters query } := by
  have hne : getWhereRestrictionsByPermissions perms ownerFields userId ≠ none := by
    rw [Ne, getWhereRestrictions_eq_none_iff]
    rcases h with h | h <;> simp [h]
  obtain ⟨w, hw⟩ := Option.ne_none_iff_exists'.mp hne
  unfold getQueryBuilder
  rw [hw]
  simp

lemma accessRestriction_of_owner (w : JsObj) (ownerFields : List String) (userId : Int)
    (hall : ∀ f ∈ ownerFields, objGet w f = some (Val.num userId)) :
    accessRestriction (some w) ownerFields =
      some (if jsTruthy (objGet w "isPublished") then
          FilterPred.orP
            (orChain (ownerFields.map (fun f => FilterPred.eqP f (Val.num userId))))
            (FilterPred.eqP "isPublished" ((objGet w "isPublished").getD Val.undef))
        else
          orChain (ownerFields.map (fun f => FilterPred.eqP f (Val.num userId)))) := by
  have hasOF : ownerFields.all (fun f => (whereGet (some w) f).isSome) = true := by
    rw [List.all_eq_true]
    intro f hf
    simp [whereGet, hall f hf]
  have hmap : ownerFields.map (fun f => FilterPred.eqP f ((objGet w f).getD Val.undef)) =
      ownerFields.map (fun f => FilterPred.eqP f (Val.num userId)) :=
    List.map_congr_left (fun f hf => by rw [hall f hf]; rfl)
  unfold accessRestriction
  simp only [whereGet] at hasOF
  simp only [whereGet, hasOF, if_true, hmap]

lemma accessRestriction_no_owner (w : JsObj) (ownerFields : List String)
    (hnof : ownerFields.all (fun f => (objGet w f).isSome) = false) :
    accessRestriction (some w) ownerFields =
      some (if jsTruthy (objGet w "isPublished") then
          FilterPred.eqP "isPublished" ((objGet w "isPublished").getD Val.undef)
        else FilterPred.emptyP) := by
  unfold accessRestriction
  simp only [whereGet, hnof]
  simp

lemma mem_stripReserved (q : QueryObj) (e : String × QVal) :
    e ∈ stripReserved q ↔ e ∈ q ∧ e.1 ∉ reservedKeys := by
  simp only [stripReserved, qdelete, List.mem_filter, decide_eq_true_eq, reservedKeys,
    List.mem_cons, List.not_mem_nil, or_false]
  tauto

/-- C1: the compiled access restriction is the denial value `false` exactly
when neither `viewAll` nor `viewOwn` is granted on the resource's namespaced
permission keys; in that case `getQueryBuilder` without the `skipPermission`
bypass throws `UnauthorizedException` for every caller query — the error
result carries no query specification, so no filter, sort, pagination or
query construction has taken place. -/
theorem crud_c1 (perms : Permissions) (ownerFields : List String) (userId : Int) :
    (getWhereRestrictionsByPermissions perms ownerFields userId = none ↔
      (perms.viewAll = false ∧ perms.viewOwn = false)) ∧
    (perms.viewAll = false → perms.viewOwn = false →
      ∀ query : QueryObj,
        getQueryBuilder perms ownerFields userId query false =
          .error HttpError.unauthorized) := by
  refine ⟨getWhereRestrictions_eq_none_iff perms ownerFields userId, ?_⟩
  intro ha ho query
  have hn : getWhereRestrictionsByPermissions perms ownerFields userId = none :=
    (getWhereRestrictions_eq_none_iff perms ownerFields userId).mpr ⟨ha, ho⟩
  unfold getQueryBuilder
  rw [hn]
  simp

/-- C1 witness: a user with no view permission at all is rejected. -/
theorem crud_c1_witness :
    getQueryBuilder ⟨false, false, false⟩ ["authorId"] 7 [] false =
      .error HttpError.unauthorized :=
  (crud_c1 ⟨false, false, false⟩ ["authorId"] 7).2 rfl rfl []

lemma compiled_case_ownAll (ownerFields : List String) (userId : Int) :
    getWhereRestrictionsByPermissions ⟨true, false, true⟩ ownerFields userId =
      some (ownerFields.foldl (fun w f => objSet w f (Val.num userId))
        [("isPublished", Val.bool true)]) := by
  simp [getWhereRestrictionsByPermissions, objSet]

lemma compiled_case_allOnly (ownerFields : List String) (userId : Int) :
    getWhereRestrictionsByPermissions ⟨true, false, false⟩ ownerFields userId =
      some [("isPublished", Val.bool true)] := by
  simp [getWhereRestrictionsByPermissions, objSet]

lemma compiled_case_allUnpub (o : Bool) (ownerFields : List String) (userId : Int) :
    getWhereRestrictionsByPermissions ⟨true, true, o⟩ ownerFields userId = some [] := by
  simp [getWhereRestrictionsByPermissions]

lemma compiled_case_ownOnly (u : Bool) (ownerFields : List String) (userId : Int) :
    getWhereRestrictionsByPermissions ⟨false, u, true⟩ ownerFields userId =
      some (ownerFields.foldl (fun w f => objSet w f (Val.num userId)) []) := by
  simp [getWhereRestrictionsByPermissions]

lemma accessWhere_ownAll (ownerFields : List String) (userId : Int)
    (hip : "isPublished" ∉ ownerFields) :
    accessRestriction (getWhereRestrictionsByPermissions ⟨true, false, true⟩ ownerFields userId)
        ownerFields =
      some (FilterPred.orP
        (orChain (ownerFields.map (fun f => FilterPred.eqP f (Val.num userId))))
        (FilterPred.eqP "isPublished" (Val.bool true))) := by
  rw [compiled_case_ownAll]
  have hall : ∀ f ∈ ownerFields,
      objGet (ownerFields.foldl (fun w f => objSet w f (Val.num userId))
        [("isPublished", Val.bool true)]) f = some (Val.num userId) := by
    intro f hf
    rw [objGet_foldl_objSet]
    simp [hf]
  rw [accessRestriction_of_owner _ _ _ hall]
  have hpub : objGet (ownerFields.foldl (fun w f => objSet w f (Val.num userId))
      [("isPublished", Val.bool true)]) "isPublished" = some (Val.bool true) := by
    rw [objGet_foldl_objSet]
    simp [hip, objGet]
  rw [hpub]
  simp [jsTruthy]

lemma accessWhere_ownOnly (u : Bool) (ownerFields : List String) (userId : Int)
    (hip : "isPublished" ∉ ownerFields) :
    accessRestriction (getWhereRestrictionsByPermissions ⟨false, u, true⟩ ownerFields userId)
        ownerFields =
      some (orChain (ownerFields.map (fun f => FilterPred.eqP f (Val.num userId)))) := by
  rw [compiled_case_ownOnly]
  have hall : ∀ f ∈ ownerFields,
      objGet (ownerFields.foldl (fun w f => objSet w f (Val.num userId)) []) f =
        some (Val.num userId) := by
    intro f hf
    rw [objGet_foldl_objSet]
    simp [hf]
  rw [accessRestriction_of_owner _ _ _ hall]
  have hpub : objGet (ownerFields.foldl (fun w f => objSet w f (Val.num userId)) [])
      "isPublished" = none := by
    rw [objGet_foldl_objSet]
    simp [hip, objGet]
  rw [hpub]
  simp [jsTruthy]

lemma accessWhere_allOnly (ownerFields : List String) (userId : Int)
    (hne : ownerFields ≠ []) (hip : "isPublished" ∉ ownerFields) :
    accessRestriction (getWhereRestrictionsByPermissions ⟨true, false, false⟩ ownerFields userId)
        ownerFields =
      some (FilterPred.eqP "isPublished" (Val.bool true)) := by
  rw [compiled_case_allOnly, accessRestriction_no_owner]
  · simp [objGet, jsTruthy]
  · obtain ⟨f0, rest, rfl⟩ := List.exists_cons_of_ne_nil hne
    have h0 : f0 ≠ "isPublished" := fun h => hip (h ▸ List.mem_cons_self f0 rest)
    simp [objGet, List.all_cons, Ne.symm h0]

lemma accessWhere_allUnpub (o : Bool) (ownerFields : List String) (userId : Int)
    (hne : ownerFields ≠ []) :
    accessRestriction (getWhereRestrictionsByPermissions ⟨true, true, o⟩ ownerFields userId)
        ownerFields =
      some FilterPred.emptyP := by
  rw [compiled_case_allUnpub, accessRestriction_no_owner]
  · simp [objGet, jsTruthy]
  · obtain ⟨f0, rest, rfl⟩ := List.exists_cons_of_ne_nil hne
    simp [objGet, List.all_cons]

/-- C3: for a resource with owner fields, whenever the owner-field restriction
is active (`viewOwn` granted and not the `viewAll`-with-`viewUnpublished`
scope), the assembled access predicate is exactly the OR-chain of one equality
term per declared owner field against the acting user's id, with the bare
`isPublished = true` clause OR'd on only when the publication restriction is
itself active (`viewAll` without `viewUnpublished`); with no owner restriction
the predicate is the bare `isPublished = true` clause when the publication
restriction is active, and the empty bracket group — which restricts nothing —
otherwise. -/
theorem crud_c3 (perms : Permissions) (ownerFields : List String) (userId : Int)
    (query : QueryObj) (hne : ownerFields ≠ []) (hip : "isPublished" ∉ ownerFields)
    (hnd : perms.viewAll = true ∨ perms.viewOwn = true) :
    ∃ spec, getQueryBuilder perms ownerFields userId query false = .ok spec ∧
      (perms.viewOwn = true → (perms.viewAll = false ∨ perms.viewUnpublished = false) →
        spec.accessWhere = some (
          if perms.viewAll && !perms.viewUnpublished then
            FilterPred.orP
              (orChain (ownerFields.map (fun f => FilterPred.eqP f (Val.num userId))))
              (FilterPred.eqP "isPublished" (Val.bool true))
          else
            orChain (ownerFields.map (fun f => FilterPred.eqP f (Val.num userId))))) ∧
      (perms.viewOwn = false → perms.viewAll = true → perms.viewUnpublished = false →
        spec.accessWhere = some (FilterPred.eqP "isPublished" (Val.bool true))) ∧
      (perms.viewAll = true → perms.viewUnpublished = true →
        spec.accessWhere = some FilterPred.emptyP ∧
          ∀ r, evalAccess spec.accessWhere r = true) := by
  obtain ⟨a, u, o⟩ := perms
  refine ⟨_, getQueryBuilder_eq_ok ⟨a, u, o⟩ ownerFields userId query false hnd, ?_, ?_, ?_⟩
  · intro ho hau
    rcases a with _ | _ <;> rcases u with _ | _ <;> rcases o with _ | _
    · exact absurd ho (by simp)
    · simpa using accessWhere_ownOnly false ownerFields userId hip
    · exact absurd ho (by simp)
    · simpa using accessWhere_ownOnly true ownerFields userId hip
    · exact absurd ho (by simp)
    · simpa using accessWhere_ownAll ownerFields userId hip
    · exact absurd ho (by simp)
    · rcases hau with h | h <;> exact absurd h (by simp)
  · intro ho ha hu
    rcases a with _ | _ <;> rcases u with _ | _ <;> rcases o with _ | _
    · exact absurd ha (by simp)
    · exact absurd ha (by simp)
    · exact absurd ha (by simp)
    · exact absurd ha (by simp)
    · simpa using accessWhere_allOnly ownerFields userId hne hip
    · exact absurd ho (by simp)
    · exact absurd hu (by simp)
    · exact absurd ho (by simp)
  · intro ha hu
    rcases a with _ | _ <;> rcases u with _ | _ <;> rcases o with _ | _
    · exact absurd ha (by simp)
    · exact absurd ha (by simp)
    · exact absurd ha (by simp)
    · exact absurd ha (by simp)
    · exact absurd hu (by simp)
    · exact absurd hu (by simp)
    · have h1 := accessWhere_allUnpub false ownerFields userId hne
      refine ⟨by simpa using h1, ?_⟩
      intro r
      have h2 : (accessRestriction
          (getWhereRestrictionsByPermissions ⟨true, true, false⟩ ownerFields userId)
          ownerFields) = some FilterPred.emptyP := h1
      simp only [h2, evalAccess, FilterPred.eval]
    · have h1 := accessWhere_allUnpub true ownerFields userId hne
      refine ⟨by simpa using h1, ?_⟩
      intro r
      have h2 : (accessRestriction
          (getWhereRestrictionsByPermissions ⟨true, true, true⟩ ownerFields userId)
          ownerFields) = some FilterPred.emptyP := h1
      simp only [h2, evalAccess, FilterPred.eval]

/-- C3 witness: two owner fields, `viewOwn` and `viewAll` without
`viewUnpublished`: two OR'd owner terms with the publication clause OR'd on. -/
theorem crud_c3_witness :
    ∃ spec, getQueryBuilder ⟨true, false, true⟩ ["authorId", "moderatorId"] 7 [] false =
        .ok spec ∧
      ((⟨true, false, true⟩ : Permissions).viewOwn = true →
        ((⟨true, false, true⟩ : Permissions).viewAll = false ∨
          (⟨true, false, true⟩ : Permissions).viewUnpublished = false) →
        spec.accessWhere = some (
          if (⟨true, false, true⟩ : Permissions).viewAll &&
              !(⟨true, false, true⟩ : Permissions).viewUnpublished then
            FilterPred.orP
              (orChain (["authorId", "moderatorId"].map
                (fun f => FilterPred.eqP f (Val.num 7))))
              (FilterPred.eqP "isPublished" (Val.bool true))
          else
            orChain (["authorId", "moderatorId"].map
              (fun f => FilterPred.eqP f (Val.num 7))))) ∧
      ((⟨true, false, true⟩ : Permissions).viewOwn = false →
        (⟨true, false, true⟩ : Permissions).viewAll = true →
        (⟨true, false, true⟩ : Permissions).viewUnpublished = false →
        spec.accessWhere = some (FilterPred.eqP "isPublished" (Val.bool true))) ∧
      ((⟨true, false, true⟩ : Permissions).viewAll = true →
        (⟨true, false, true⟩ : Permissions).viewUnpublished = true →
        spec.accessWhere = some FilterPred.emptyP ∧
          ∀ r, evalAccess spec.accessWhere r = true) :=
  crud_c3 ⟨true, false, true⟩ ["authorId", "moderatorId"] 7 [] (by decide) (by decide)
    (Or.inl rfl)

/-- C2 counterexample: a `viewOwn`-only user with two owner fields gets an
assembled access filter that is satisfied by a row whose second owner field
does not equal the acting user's id — the owner terms are OR'd, so the filter
does not require every owner field to equal the user's id. -/
theorem crud_c2_counterexample :
    accessOf (getQueryBuilder ⟨false, false, true⟩ ["authorId", "moderatorId"] 7 [] false) =
      some (FilterPred.orP (FilterPred.eqP "authorId" (Val.num 7))
        (FilterPred.eqP "moderatorId" (Val.num 7))) ∧
    evalAccess
      (accessOf (getQueryBuilder ⟨false, false, true⟩ ["authorId", "moderatorId"] 7 [] false))
      [("authorId", Val.num 7), ("moderatorId", Val.num 8)] = true ∧
    objGet [("authorId", Val.num 7), ("moderatorId", Val.num 8)] "moderatorId" ≠
      some (Val.num 7) := by
  have h := getQueryBuilder_eq_ok ⟨false, false, true⟩ ["authorId", "moderatorId"] 7 []
    false (Or.inr rfl)
  rw [h]
  refine ⟨?_, ?_, by decide⟩
  · show accessRestriction
        (getWhereRestrictionsByPermissions ⟨false, false, true⟩ ["authorId", "moderatorId"] 7)
        ["authorId", "moderatorId"] = _
    decide
  · show evalAccess (accessRestriction
        (getWhereRestrictionsByPermissions ⟨false, false, true⟩ ["authorId", "moderatorId"] 7)
        ["authorId", "moderatorId"]) _ = true
    decide

/-- C2 (amended): for a user granted `viewOwn` but not `viewAll` and a
non-empty owner-field list, the compiled `where` object maps every owner field
to the acting user's id, but the assembled filter combines the per-field
equality terms with OR: a row satisfies it exactly when at least one owner
field equals the user's id, not necessarily all of them. -/
theorem crud_c2_amended (u : Bool) (ownerFields : List String) (userId : Int)
    (query : QueryObj) (hne : ownerFields ≠ []) (hip : "isPublished" ∉ ownerFields) :
    (∃ w, getWhereRestrictionsByPermissions ⟨false, u, true⟩ ownerFields userId = some w ∧
      ∀ f ∈ ownerFields, objGet w f = some (Val.num userId)) ∧
    (∃ spec, getQueryBuilder ⟨false, u, true⟩ ownerFields userId query false = .ok spec ∧
      spec.accessWhere =
        some (orChain (ownerFields.map (fun f => FilterPred.eqP f (Val.num userId)))) ∧
      ∀ r, evalAccess spec.accessWhere r = true ↔
        ∃ f ∈ ownerFields, objGet r f = some (Val.num userId)) := by
  constructor
  · refine ⟨_, compiled_case_ownOnly u ownerFields userId, ?_⟩
    intro f hf
    rw [objGet_foldl_objSet]
    simp [hf]
  · refine ⟨_, getQueryBuilder_eq_ok ⟨false, u, true⟩ ownerFields userId query false
      (Or.inr rfl), ?_⟩
    have h1 := accessWhere_ownOnly u ownerFields userId hip
    refine ⟨by simpa using h1, ?_⟩
    intro r
    have hmne : ownerFields.map (fun f => FilterPred.eqP f (Val.num userId)) ≠ [] := by
      intro hcon
      exact hne (List.map_eq_nil_iff.mp hcon)
    have h2 : (accessRestriction
        (getWhereRestrictionsByPermissions ⟨false, u, true⟩ ownerFields userId)
        ownerFields) = some (orChain
          (ownerFields.map (fun f => FilterPred.eqP f (Val.num userId)))) := h1
    simp only [h2, evalAccess]
    rw [eval_orChain _ _ hmne]
    simp [List.any_map, FilterPred.eval, List.any_eq_true, Function.comp]

/-- C2 witness: the amended statement at a concrete input. -/
theorem crud_c2_amended_witness :
    (∃ w, getWhereRestrictionsByPermissions ⟨false, false, true⟩ ["authorId", "moderatorId"]
        7 = some w ∧
      ∀ f ∈ ["authorId", "moderatorId"], objGet w f = some (Val.num 7)) ∧
    (∃ spec, getQueryBuilder ⟨false, false, true⟩ ["authorId", "moderatorId"] 7 [] false =
        .ok spec ∧
      spec.accessWhere =
        some (orChain (["authorId", "moderatorId"].map
          (fun f => FilterPred.eqP f (Val.num 7)))) ∧
      ∀ r, evalAccess spec.accessWhere r = true ↔
        ∃ f ∈ ["authorId", "moderatorId"], objGet r f = some (Val.num 7)) :=
  crud_c2_amended false ["authorId", "moderatorId"] 7 [] (by decide) (by decide)

lemma mem_of_objGet_eq_some (o : JsObj) (k : String) (v : Val)
    (h : objGet o k = some v) : (k, v) ∈ o := by
  induction o with
  | nil => simp [objGet] at h
  | cons e o ih =>
    by_cases he : e.1 = k
    · obtain ⟨k0, v0⟩ := e
      simp only [objGet] at h
      simp only at he
      rw [if_pos he] at h
      subst he
      have hv := Option.some.inj h
      rw [List.mem_cons]
      exact Or.inl (by rw [hv])
    · simp only [objGet, he, if_false] at h
      exact List.mem_cons_of_mem _ (ih h)

lemma objGet_map_const (fields : List String) (v : Val) (f : String) (hf : f ∈ fields) :
    objGet (fields.map (fun g => (g, v))) f = some v := by
  induction fields with
  | nil => simp at hf
  | cons g rest ih =>
    by_cases hg : g = f
    · simp [objGet, hg]
    · rcases List.mem_cons.mp hf with h | h
      · exact absurd h.symm hg
      · simp [objGet, hg, ih h]

/-- C4: for a user granted `viewAll` but not `viewUnpublished`, the compiled
restriction object requires `isPublished = true`; with `viewOwn` absent it is
exactly `{ isPublished: true }`, and with `viewOwn` also granted it
additionally binds every owner field to the acting user's id, which — read as
a TypeORM find-option conjunction — is strictly narrower than the
`viewAll`-only restriction. -/
theorem crud_c4 (ownerFields : List String) (userId : Int)
    (hne : ownerFields ≠ []) (hip : "isPublished" ∉ ownerFields) :
    getWhereRestrictionsByPermissions ⟨true, false, false⟩ ownerFields userId =
      some [("isPublished", Val.bool true)] ∧
    ∃ w, getWhereRestrictionsByPermissions ⟨true, false, true⟩ ownerFields userId = some w ∧
      objGet w "isPublished" = some (Val.bool true) ∧
      (∀ f ∈ ownerFields, objGet w f = some (Val.num userId)) ∧
      (∀ r, whereMatches w r = true →
        whereMatches [("isPublished", Val.bool true)] r = true) ∧
      (∃ r, whereMatches [("isPublished", Val.bool true)] r = true ∧
        whereMatches w r = false) := by
  refine ⟨compiled_case_allOnly ownerFields userId,
    _, compiled_case_ownAll ownerFields userId, ?_, ?_, ?_, ?_⟩
  · rw [objGet_foldl_objSet]
    simp [hip, objGet]
  · intro f hf
    rw [objGet_foldl_objSet]
    simp [hf]
  · intro r hm
    have hpub : objGet (ownerFields.foldl (fun w f => objSet w f (Val.num userId))
        [("isPublished", Val.bool true)]) "isPublished" = some (Val.bool true) := by
      rw [objGet_foldl_objSet]
      simp [hip, objGet]
    have hmem := mem_of_objGet_eq_some _ _ _ hpub
    have hr := List.all_eq_true.mp hm _ hmem
    simp only [decide_eq_true_eq] at hr
    simp [whereMatches, hr]
  · refine ⟨("isPublished", Val.bool true) ::
      ownerFields.map (fun f => (f, Val.num (userId + 1))), ?_, ?_⟩
    · simp [whereMatches, objGet]
    · obtain ⟨f0, rest, hOF⟩ := List.exists_cons_of_ne_nil hne
      have hf0 : f0 ∈ ownerFields := by rw [hOF]; exact List.mem_cons_self f0 rest
      have hf0p : f0 ≠ "isPublished" := fun h => hip (h ▸ hf0)
      have hw0 : objGet (ownerFields.foldl (fun w f => objSet w f (Val.num userId))
          [("isPublished", Val.bool true)]) f0 = some (Val.num userId) := by
        rw [objGet_foldl_objSet]
        simp [hf0]
      have hmem := mem_of_objGet_eq_some _ _ _ hw0
      have hrow : objGet (("isPublished", Val.bool true) ::
          ownerFields.map (fun f => (f, Val.num (userId + 1)))) f0 =
            some (Val.num (userId + 1)) := by
        simp only [objGet, Ne.symm hf0p, if_false]
        exact objGet_map_const ownerFields (Val.num (userId + 1)) f0 hf0
      rw [Bool.eq_false_iff]
      intro hm
      have hr := List.all_eq_true.mp hm _ hmem
      simp only [decide_eq_true_eq] at hr
      rw [hrow] at hr
      have : userId + 1 = userId := by
        have := Option.some.inj hr
        exact Val.num.inj this
      omega

/-- C4 witness: one owner field, user id 7. -/
theorem crud_c4_witness :
    getWhereRestrictionsByPermissions ⟨true, false, false⟩ ["authorId"] 7 =
      some [("isPublished", Val.bool true)] ∧
    ∃ w, getWhereRestrictionsByPermissions ⟨true, false, true⟩ ["authorId"] 7 = some w ∧
      objGet w "isPublished" = some (Val.bool true) ∧
      (∀ f ∈ ["authorId"], objGet w f = some (Val.num 7)) ∧
      (∀ r, whereMatches w r = true →
        whereMatches [("isPublished", Val.bool true)] r = true) ∧
      (∃ r, whereMatches [("isPublished", Val.bool true)] r = true ∧
        whereMatches w r = false) :=
  crud_c4 ["authorId"] 7 (by decide) (by decide)

lemma assembleLimit_num_big (query : QueryObj) (n : Nat)
    (h : qget query "limit" = some (QVal.num n)) (hgt : 100 < n) :
    assembleLimit query = (100, true) := by
  unfold assembleLimit
  rw [h]
  simp only [qTruthy, if_true, parseIntQ]
  rw [if_pos (by omega)]

lemma assembleLimit_num_small (query : QueryObj) (n : Nat)
    (h : qget query "limit" = some (QVal.num n)) (hle : n ≤ 100) :
    assembleLimit query = (n, false) := by
  unfold assembleLimit
  rw [h]
  simp only [qTruthy, if_true, parseIntQ]
  rw [if_neg (by omega)]

lemma assembleLimit_none (query : QueryObj) (h : qget query "limit" = none) :
    assembleLimit query = (25, false) := by
  unfold assembleLimit
  rw [h]

lemma assemblePage_limit_none (query : QueryObj) (h : qget query "limit" = none) :
    assemblePage query = 0 := by
  unfold assemblePage
  rw [h]

lemma assemblePage_page_none (query : QueryObj) (h : qget query "page" = none) :
    assemblePage query = 0 := by
  unfold assemblePage
  cases hl : qget query "limit" with
  | none => rfl
  | some v => rw [h]; simp

lemma assemblePage_num (query : QueryObj) (n p : Nat)
    (hl : qget query "limit" = some (QVal.num n))
    (hp : qget query "page" = some (QVal.num p)) :
    assemblePage query = p := by
  unfold assemblePage
  rw [hl, hp]
  simp [qTruthy, parseIntQ]

lemma assembleSkip_offset_num (query : QueryObj) (m : Nat)
    (h : qget query "offset" = some (QVal.num m)) :
    assembleSkip query = m := by
  unfold assembleSkip
  rw [h]
  simp [qTruthy, parseIntQ]

lemma assembleSkip_offset_none (query : QueryObj) (h : qget query "offset" = none) :
    assembleSkip query = (assembleLimit query).1 * assemblePage query := by
  unfold assembleSkip
  rw [h]

/-- C5: pagination of the assembled query — a supplied limit above 100 is
clamped to 100 with the warning flag set, a supplied limit of at most 100 is
used as-is, an absent limit defaults to 25 with page 0, an absent page
defaults to 0, a supplied offset is used verbatim, and an absent offset is the
effective limit times the effective page (e.g. limit 10, page 2 gives
offset 20). -/
theorem crud_c5 (perms : Permissions) (ownerFields : List String) (userId : Int)
    (query : QueryObj) (hnd : perms.viewAll = true ∨ perms.viewOwn = true) :
    ∃ spec, getQueryBuilder perms ownerFields userId query false = .ok spec ∧
      (∀ n, qget query "limit" = some (QVal.num n) → 100 < n →
        spec.take = 100 ∧ spec.limitWarned = true) ∧
      (∀ n, qget query "limit" = some (QVal.num n) → n ≤ 100 →
        spec.take = n ∧ spec.limitWarned = false) ∧
      (qget query "limit" = none →
        spec.take = 25 ∧ assemblePage query = 0 ∧ spec.limitWarned = false) ∧
      (qget query "page" = none → assemblePage query = 0) ∧
      (∀ m, qget query "offset" = some (QVal.num m) → spec.skip = m) ∧
      (qget query "offset" = none → spec.skip = spec.take * assemblePage query) ∧
      (∀ n p, qget query "limit" = some (QVal.num n) → n ≤ 100 →
        qget query "page" = some (QVal.num p) → qget query "offset" = none →
        spec.skip = n * p) := by
  refine ⟨_, getQueryBuilder_eq_ok perms ownerFields userId query false hnd,
    ?_, ?_, ?_, ?_, ?_, ?_, ?_⟩
  · intro n h hgt
    have hl := assembleLimit_num_big query n h hgt
    exact ⟨by simp [hl], by simp [hl]⟩
  · intro n h hle
    have hl := assembleLimit_num_small query n h hle
    exact ⟨by simp [hl], by simp [hl]⟩
  · intro h
    exact ⟨by simp [assembleLimit_none query h], assemblePage_limit_none query h,
      by simp [assembleLimit_none query h]⟩
  · exact assemblePage_page_none query
  · intro m h
    simp [assembleSkip_offset_num query m h]
  · intro h
    simp [assembleSkip_offset_none query h]
  · intro n p hl hle hp hoff
    simp [assembleSkip_offset_none query hoff, assembleLimit_num_small query n hl hle,
      assemblePage_num query n p hl hp]

/-- C5 witness: limit 150 with page 2 is clamped to 100 with a warning and the
offset works out via the clamped limit; the hypotheses of each branch are
exercised at their own concrete query by the other claims' witnesses. -/
theorem crud_c5_witness :
    ∃ spec, getQueryBuilder ⟨true, true, false⟩ ["authorId"] 7
        [("limit", QVal.num 150), ("page", QVal.num 2)] false = .ok spec ∧
      (∀ n, qget [("limit", QVal.num 150), ("page", QVal.num 2)] "limit" =
          some (QVal.num n) → 100 < n →
        spec.take = 100 ∧ spec.limitWarned = true) ∧
      (∀ n, qget [("limit", QVal.num 150), ("page", QVal.num 2)] "limit" =
          some (QVal.num n) → n ≤ 100 →
        spec.take = n ∧ spec.limitWarned = false) ∧
      (qget [("limit", QVal.num 150), ("page", QVal.num 2)] "limit" = none →
        spec.take = 25 ∧ assemblePage [("limit", QVal.num 150), ("page", QVal.num 2)] = 0 ∧
          spec.limitWarned = false) ∧
      (qget [("limit", QVal.num 150), ("page", QVal.num 2)] "page" = none →
        assemblePage [("limit", QVal.num 150), ("page", QVal.num 2)] = 0) ∧
      (∀ m, qget [("limit", QVal.num 150), ("page", QVal.num 2)] "offset" =
          some (QVal.num m) → spec.skip = m) ∧
      (qget [("limit", QVal.num 150), ("page", QVal.num 2)] "offset" = none →
        spec.skip = spec.take * assemblePage [("limit", QVal.num 150), ("page", QVal.num 2)]) ∧
      (∀ n p, qget [("limit", QVal.num 150), ("page", QVal.num 2)] "limit" =
          some (QVal.num n) → n ≤ 100 →
        qget [("limit", QVal.num 150), ("page", QVal.num 2)] "page" = some (QVal.num p) →
        qget [("limit", QVal.num 150), ("page", QVal.num 2)] "offset" = none →
        spec.skip = n * p) :=
  crud_c5 ⟨true, true, false⟩ ["authorId"] 7
    [("limit", QVal.num 150), ("page", QVal.num 2)] (Or.inl rfl)

lemma predKey_toFilter (e : String × QVal) : predKey (toFilter e) = e.1 := by
  obtain ⟨k, v⟩ := e
  cases v <;> rfl

/-- C6: the reserved keys limit, page, orderBy, order and offset never appear
as entity filters of the assembled query; every remaining caller key becomes a
filter ANDed onto the query — an equality filter for a scalar value and a
set-membership (IN) filter for an array value — and every assembled filter
stems from such a non-reserved caller key. -/
theorem crud_c6 (perms : Permissions) (ownerFields : List String) (userId : Int)
    (query : QueryObj) (hnd : perms.viewAll = true ∨ perms.viewOwn = true) :
    ∃ spec, getQueryBuilder perms ownerFields userId query false = .ok spec ∧
      (∀ p ∈ spec.filters, predKey p ∉ reservedKeys) ∧
      (∀ k s, (k, QVal.str s) ∈ query → k ∉ reservedKeys →
        FilterPred.eqP k (Val.str s) ∈ spec.filters) ∧
      (∀ k n, (k, QVal.num n) ∈ query → k ∉ reservedKeys →
        FilterPred.eqP k (Val.num n) ∈ spec.filters) ∧
      (∀ k xs, (k, QVal.arr xs) ∈ query → k ∉ reservedKeys →
        FilterPred.inP k (xs.map Val.str) ∈ spec.filters) ∧
      (∀ p ∈ spec.filters, ∃ e ∈ query, e.1 ∉ reservedKeys ∧ p = toFilter e) := by
  refine ⟨_, getQueryBuilder_eq_ok perms ownerFields userId query false hnd,
    ?_, ?_, ?_, ?_, ?_⟩
  · intro p hp
    have hp2 : p ∈ (stripReserved query).map toFilter := hp
    obtain ⟨e, he, rfl⟩ := List.mem_map.mp hp2
    rw [predKey_toFilter]
    exact ((mem_stripReserved query e).mp he).2
  · intro k s hk hres
    have hmem : (k, QVal.str s) ∈ stripReserved query :=
      (mem_stripReserved query (k, QVal.str s)).mpr ⟨hk, hres⟩
    exact List.mem_map.mpr ⟨_, hmem, rfl⟩
  · intro k n hk hres
    have hmem : (k, QVal.num n) ∈ stripReserved query :=
      (mem_stripReserved query (k, QVal.num n)).mpr ⟨hk, hres⟩
    exact List.mem_map.mpr ⟨_, hmem, rfl⟩
  · intro k xs hk hres
    have hmem : (k, QVal.arr xs) ∈ stripReserved query :=
      (mem_stripReserved query (k, QVal.arr xs)).mpr ⟨hk, hres⟩
    exact List.mem_map.mpr ⟨_, hmem, rfl⟩
  · intro p hp
    have hp2 : p ∈ (stripReserved query).map toFilter := hp
    obtain ⟨e, he, rfl⟩ := List.mem_map.mp hp2
    have h2 := (mem_stripReserved query e).mp he
    exact ⟨e, h2.1, h2.2, rfl⟩

/-- C6 witness: a query holding a reserved key, a scalar filter and an array
filter. -/
theorem crud_c6_witness :
    ∃ spec, getQueryBuilder ⟨true, true, false⟩ ["authorId"] 7
        [("limit", QVal.num 10), ("city", QVal.arr ["a", "b"]), ("name", QVal.str "x")]
        false = .ok spec ∧
      (∀ p ∈ spec.filters, predKey p ∉ reservedKeys) ∧
      (∀ k s, (k, QVal.str s) ∈
          [("limit", QVal.num 10), ("city", QVal.arr ["a", "b"]), ("name", QVal.str "x")] →
        k ∉ reservedKeys → FilterPred.eqP k (Val.str s) ∈ spec.filters) ∧
      (∀ k n, (k, QVal.num n) ∈
          [("limit", QVal.num 10), ("city", QVal.arr ["a", "b"]), ("name", QVal.str "x")] →
        k ∉ reservedKeys → FilterPred.eqP k (Val.num n) ∈ spec.filters) ∧
      (∀ k xs, (k, QVal.arr xs) ∈
          [("limit", QVal.num 10), ("city", QVal.arr ["a", "b"]), ("name", QVal.str "x")] →
        k ∉ reservedKeys → FilterPred.inP k (xs.map Val.str) ∈ spec.filters) ∧
      (∀ p ∈ spec.filters, ∃ e ∈
          [("limit", QVal.num 10), ("city", QVal.arr ["a", "b"]), ("name", QVal.str "x")],
        e.1 ∉ reservedKeys ∧ p = toFilter e) :=
  crud_c6 ⟨true, true, false⟩ ["authorId"] 7
    [("limit", QVal.num 10), ("city", QVal.arr ["a", "b"]), ("name", QVal.str "x")]
    (Or.inl rfl)

lemma keys_objSet (o : JsObj) (k : String) (v : Val) :
    (objSet o k v).map Prod.fst =
      if (objGet o k).isSome then o.map Prod.fst else o.map Prod.fst ++ [k] := by
  induction o with
  | nil => simp [objSet, objGet]
  | cons e o ih =>
    by_cases he : e.1 = k
    · simp [objSet, objGet, he]
    · simp only [objSet, objGet, he, if_false, List.map_cons, ih]
      by_cases hs : (objGet o k).isSome
      · simp [hs]
      · simp [hs]

lemma objSet_keys_nodup (o : JsObj) (k : String) (v : Val)
    (h : (o.map Prod.fst).Nodup) : ((objSet o k v).map Prod.fst).Nodup := by
  rw [keys_objSet]
  by_cases hs : (objGet o k).isSome
  · simp [hs, h]
  · have hn : objGet o k = none := Option.not_isSome_iff_eq_none.mp hs
    have hk : k ∉ o.map Prod.fst := by
      intro hmem
      obtain ⟨e, he, hke⟩ := List.mem_map.mp hmem
      exact (objGet_eq_none_iff o k).mp hn e he hke
    simp [hs, List.nodup_append, h, hk]

/-- C7: on update, the entity handed to the store keeps `id` and `authorId`
from the current entity, carries `moderatorId` of the acting user, and every
other field is the submitted value when one was submitted and the current
value otherwise. -/
theorem crud_c7 (userId : Int) (currentEntity newEntity : JsObj)
    (save : JsObj → Except JsError JsObj)
    (hnd : (newEntity.map Prod.fst).Nodup)
    (hid : (objGet currentEntity "id").isSome)
    (hau : (objGet currentEntity "authorId").isSome) :
    ∃ merged, (updateContentEntity userId currentEntity newEntity save).saved =
        some merged ∧
      objGet merged "id" = objGet currentEntity "id" ∧
      objGet merged "authorId" = objGet currentEntity "authorId" ∧
      objGet merged "moderatorId" = some (Val.num userId) ∧
      (∀ k, k ≠ "id" → k ≠ "authorId" → k ≠ "moderatorId" →
        objGet merged k = match objGet newEntity k with
          | some v => some v
          | none => objGet currentEntity k) := by
  obtain ⟨vid, hvid⟩ := Option.isSome_iff_exists.mp hid
  obtain ⟨vau, hvau⟩ := Option.isSome_iff_exists.mp hau
  set n1 := objSet newEntity "id" ((objGet currentEntity "id").getD Val.undef) with hn1
  set n2 := objSet n1 "authorId" ((objGet currentEntity "authorId").getD Val.undef) with hn2
  set n3 := objSet n2 "moderatorId" (Val.num userId) with hn3
  have hnd3 : (n3.map Prod.fst).Nodup :=
    objSet_keys_nodup _ _ _ (objSet_keys_nodup _ _ _ (objSet_keys_nodup _ _ _ hnd))
  have hid3 : objGet n3 "id" = some vid := by
    rw [hn3, objGet_objSet_ne _ _ _ _ (by decide), hn2,
      objGet_objSet_ne _ _ _ _ (by decide), hn1, objGet_objSet_self, hvid]
    rfl
  have hau3 : objGet n3 "authorId" = some vau := by
    rw [hn3, objGet_objSet_ne _ _ _ _ (by decide), hn2, objGet_objSet_self, hvau]
    rfl
  have hmod3 : objGet n3 "moderatorId" = some (Val.num userId) := by
    rw [hn3, objGet_objSet_self]
  refine ⟨objAssign currentEntity n3, ?_, ?_, ?_, ?_, ?_⟩
  · unfold updateContentEntity updateMerged
    cases h : save (objAssign currentEntity n3) <;> simp [hn1, hn2, hn3, h]
  · rw [objGet_objAssign_of_some _ _ _ _ hnd3 hid3, hvid]
  · rw [objGet_objAssign_of_some _ _ _ _ hnd3 hau3, hvau]
  · rw [objGet_objAssign_of_some _ _ _ _ hnd3 hmod3]
  · intro k hk1 hk2 hk3
    have hn3k : objGet n3 k = objGet newEntity k := by
      rw [hn3, objGet_objSet_ne _ _ _ _ hk3, hn2, objGet_objSet_ne _ _ _ _ hk2, hn1,
        objGet_objSet_ne _ _ _ _ hk1]
    cases hS : objGet newEntity k with
    | some v =>
      rw [objGet_objAssign_of_some _ _ _ _ hnd3 (hn3k.trans hS)]
    | none =>
      rw [objGet_objAssign_of_none _ _ _ (hn3k.trans hS)]

/-- C7 witness: the worked example of the specification — current entity
`{id: 5, authorId: 3}`, submitted `{title: "x"}`, acting user 9. -/
theorem crud_c7_witness :
    ∃ merged, (updateContentEntity 9 [("id", Val.num 5), ("authorId", Val.num 3)]
        [("title", Val.str "x")] (fun o => .ok o)).saved = some merged ∧
      objGet merged "id" = objGet [("id", Val.num 5), ("authorId", Val.num 3)] "id" ∧
      objGet merged "authorId" =
        objGet [("id", Val.num 5), ("authorId", Val.num 3)] "authorId" ∧
      objGet merged "moderatorId" = some (Val.num 9) ∧
      (∀ k, k ≠ "id" → k ≠ "authorId" → k ≠ "moderatorId" →
        objGet merged k = match objGet [("title", Val.str "x")] k with
          | some v => some v
          | none => objGet [("id", Val.num 5), ("authorId", Val.num 3)] k) :=
  crud_c7 9 [("id", Val.num 5), ("authorId", Val.num 3)] [("title", Val.str "x")]
    (fun o => .ok o) (by decide) (by decide) (by decide)

/-- C8: on create, a duplicate-key driver error (`ER_DUP_ENTRY`) becomes a
`Conflict` carrying the duplicate-entity message, and any other driver error
becomes an `UnprocessableEntity` carrying only the fixed generic message while
the underlying error goes to the log, never to the caller. -/
theorem crud_c8 (entity : JsObj) (user : UserEntity)
    (save : JsObj → Except JsError JsObj) :
    (∀ e, save (createStamp entity user) = .error e → e.code = "ER_DUP_ENTRY" →
      (createContentEntity entity user save).result =
          .error (HttpError.conflict "Duplicate entity. Please, check unique fields") ∧
        (createContentEntity entity user save).logged = []) ∧
    (∀ e, save (createStamp entity user) = .error e → e.code ≠ "ER_DUP_ENTRY" →
      (createContentEntity entity user save).result =
          .error (HttpError.unprocessable
            "Something went wrong. Please try later or contact us") ∧
        (createContentEntity entity user save).logged = [e]) := by
  constructor <;> intro e h hc <;> simp [createContentEntity, h, hc]

/-- C8 witness: a duplicate-key failure yields the Conflict outcome. -/
theorem crud_c8_witness :
    (createContentEntity [("title", Val.str "t")] ⟨7, true⟩
        (fun _ => .error ⟨"ER_DUP_ENTRY", "dup"⟩)).result =
      .error (HttpError.conflict "Duplicate entity. Please, check unique fields") ∧
    (createContentEntity [("title", Val.str "t")] ⟨7, true⟩
        (fun _ => .error ⟨"ER_DUP_ENTRY", "dup"⟩)).logged = [] :=
  (crud_c8 [("title", Val.str "t")] ⟨7, true⟩
    (fun _ => .error ⟨"ER_DUP_ENTRY", "dup"⟩)).1 ⟨"ER_DUP_ENTRY", "dup"⟩ rfl rfl

/-- C9: a persistence failure during update is caught: the thrown driver error
is written to the log and the handler returns normally with no value — no
user-visible error is raised. -/
theorem crud_c9 (userId : Int) (currentEntity newEntity : JsObj)
    (save : JsObj → Except JsError JsObj) :
    ∀ e, save (updateMerged userId currentEntity newEntity) = .error e →
      (updateContentEntity userId currentEntity newEntity save).result = .ok none ∧
      (updateContentEntity userId currentEntity newEntity save).logged = [e] := by
  intro e h
  simp [updateContentEntity, h]

/-- C9 witness: a failing save during update is swallowed and logged. -/
theorem crud_c9_witness :
    (updateContentEntity 9 [("id", Val.num 5)] [] (fun _ => .error ⟨"X", "boom"⟩)).result =
      .ok none ∧
    (updateContentEntity 9 [("id", Val.num 5)] [] (fun _ => .error ⟨"X", "boom"⟩)).logged =
      [⟨"X", "boom"⟩] :=
  crud_c9 9 [("id", Val.num 5)] [] (fun _ => .error ⟨"X", "boom"⟩) ⟨"X", "boom"⟩ rfl

lemma getQueryBuilder_skip_eq_ok (perms : Permissions) (ownerFields : List String)
    (userId : Int) (query : QueryObj) :
    getQueryBuilder perms ownerFields userId query true = .ok {
      accessWhere :=
        accessRestriction (getWhereRestrictionsByPermissions perms ownerFields userId)
          ownerFields
      joins :=
        accessJoins (getWhereRestrictionsByPermissions perms ownerFields userId) ownerFields
      order := assembleOrder query
      take := (assembleLimit query).1
      skip := assembleSkip query
      limitWarned := (assembleLimit query).2
      filters := assembleFilters query } := by
  unfold getQueryBuilder
  simp

/-- C10: a user holding neither viewAll nor viewOwn still gets a query when
the caller requests the permission bypass: no `where` bracket is installed at
all — the access part matches every row, published or not, owned or not — and
no owner joins are added, while the caller-supplied filters, sort and
pagination are assembled exactly as for a fully permitted user. -/
theorem crud_c10 (vu : Bool) (ownerFields : List String) (userId : Int)
    (query : QueryObj) :
    ∃ spec, getQueryBuilder ⟨false, vu, false⟩ ownerFields userId query true = .ok spec ∧
      spec.accessWhere = none ∧
      spec.joins = [] ∧
      (∀ row, evalAccess spec.accessWhere row = true) ∧
      ∃ spec2, getQueryBuilder ⟨true, true, false⟩ ownerFields userId query false =
          .ok spec2 ∧
        spec.filters = spec2.filters ∧ spec.order = spec2.order ∧
        spec.take = spec2.take ∧ spec.skip = spec2.skip ∧
        spec.limitWarned = spec2.limitWarned := by
  have hc : getWhereRestrictionsByPermissions ⟨false, vu, false⟩ ownerFields userId = none :=
    (getWhereRestrictions_eq_none_iff _ _ _).mpr ⟨rfl, rfl⟩
  have haw : accessRestriction
      (getWhereRestrictionsByPermissions ⟨false, vu, false⟩ ownerFields userId)
      ownerFields = none := by
    rw [hc]
    rfl
  refine ⟨_, getQueryBuilder_skip_eq_ok ⟨false, vu, false⟩ ownerFields userId query,
    haw, ?_, ?_,
    _, getQueryBuilder_eq_ok ⟨true, true, false⟩ ownerFields userId query false (Or.inl rfl),
    rfl, rfl, rfl, rfl, rfl⟩
  · show accessJoins
      (getWhereRestrictionsByPermissions ⟨false, vu, false⟩ ownerFields userId) ownerFields = []
    rw [hc]
    rfl
  · intro row
    show evalAccess (accessRestriction
      (getWhereRestrictionsByPermissions ⟨false, vu, false⟩ ownerFields userId)
      ownerFields) row = true
    rw [haw]
    rfl
